import Mathlib

/-!
Shallow embedding of the ES|QL Monaco language-service adapter of this
repository: the offset translator `offsetToRowColumn`, the message wrapper
`wrapAsMonacoMessage`, and the autocomplete range reset of
`ESQLAstAdapter.autocomplete`, together with proofs of the testable
properties of the specification. A buffer is modelled through its character
sequence; a thrown JS `Error` is modelled as the error branch of `Except`.
-/

/-- Monaco position as produced by `new monaco.Position(lineNumber, column)`:
1-based line number and 1-based column. -/
structure Position where
  lineNumber : Nat
  column : Nat
deriving Repr, DecidableEq

/-- Numeric Monaco marker severity `monaco.MarkerSeverity.Error`. -/
def markerSeverityError : Nat := 8

/-- Numeric Monaco marker severity `monaco.MarkerSeverity.Warning`. -/
def markerSeverityWarning : Nat := 4

/-- The severity tag argument of `wrapAsMonacoMessage`, the TS union type
`error | warning`. -/
inductive Severity where
  | error
  | warning
deriving Repr, DecidableEq

/-- The severity value placed on a built marker, mirroring
`type === 'error' ? monaco.MarkerSeverity.Error : monaco.MarkerSeverity.Warning`. -/
def severityValue : Severity → Nat
  | .error => markerSeverityError
  | .warning => markerSeverityWarning

/-- JS `expression.split(/\n/)` on the character sequence of the buffer:
split at every newline character. A trailing newline yields a final empty
line and the empty buffer yields one empty line, exactly as in JS. -/
def splitLines : List Char → List (List Char)
  | [] => [[]]
  | c :: cs =>
    if c = '\n' then [] :: splitLines cs
    else
      match splitLines cs with
      | [] => [[c]]
      | l :: ls => (c :: l) :: ls

/-- The loop of `offsetToRowColumn`: walk the split lines carrying
`remainingChars` and the 1-based `lineNumber`; the first line whose length is
at least the remaining count holds the target column `remainingChars + 1`;
otherwise consume the line plus one for its newline. Falling off the end
models `throw new Error('Algorithm failure')`. -/
def offsetToRowColumnAux : List (List Char) → Nat → Nat → Except String Position
  | [], _, _ => .error "Algorithm failure"
  | line :: rest, remainingChars, lineNumber =>
    if line.length ≥ remainingChars then
      .ok ⟨lineNumber, remainingChars + 1⟩
    else
      offsetToRowColumnAux rest (remainingChars - (line.length + 1)) (lineNumber + 1)

/-- Source function `offsetToRowColumn(expression, offset)`: convert a
0-based linear offset into a 1-based Monaco position, or fail when the
offset lies beyond the end of the buffer. -/
def offsetToRowColumn (expression : String) (offset : Nat) : Except String Position :=
  offsetToRowColumnAux (splitLines expression.data) offset 1

/-- Offset range carried by a raw ES|QL message. The `max` component is
optional so that the falsy guard `e.location.max || 0` of the source is
representable: both an absent and a zero `max` yield offset 0. -/
structure ESQLLocation where
  min : Nat
  max : Option Nat
deriving Repr, DecidableEq

/-- Editor marker record (`EditorError`): message text, line/column range,
numeric Monaco severity, and the optional source tag (`_source: 'client'`
on markers built by the wrapper). -/
structure EditorError where
  message : String
  startColumn : Nat
  startLineNumber : Nat
  endColumn : Nat
  endLineNumber : Nat
  severity : Nat
  source : Option String
deriving Repr, DecidableEq

/-- Input element of the wrapper, the TS union `ESQLMessage | EditorError`:
either a raw parser message (text plus optional offset range) or an already
positioned marker. The TS return type of the wrapper is `EditorError[]`;
the embedding keeps the union as the result element type so that the
invariant that every output is a marker can be stated and proved. -/
inductive Diagnostic where
  | raw (text : String) (location : Option ESQLLocation)
  | marker (m : EditorError)
deriving Repr, DecidableEq

/-- The duck-typing discriminator `'severity' in e` used by the wrapper. -/
def hasSeverity : Diagnostic → Bool
  | .raw _ _ => false
  | .marker _ => true

/-- The `fallbackPosition = \x7b column: 0, lineNumber: 0 \x7d` constant of
the wrapper. -/
def fallbackPosition : Position := ⟨0, 0⟩

/-- The function mapped over `messages` in `wrapAsMonacoMessage`: a message
already carrying a severity passes through unchanged; a raw message gets its
start and end positions translated from its offsets (the fallback position
when it has no location, and `max || 0` for an absent or zero max), with the
exclusive end column `endPosition.column + 1`. A thrown translator error
propagates as the error branch. -/
def wrapOne (type : Severity) (code : String) : Diagnostic → Except String Diagnostic
  | .marker e => .ok (.marker e)
  | .raw text location =>
    (match location with
      | some loc => offsetToRowColumn code loc.min
      | none => .ok fallbackPosition).bind fun startPosition =>
    (match location with
      | some loc => offsetToRowColumn code (loc.max.getD 0)
      | none => .ok fallbackPosition).bind fun endPosition =>
    .ok (.marker
      { message := text
        startColumn := startPosition.column
        startLineNumber := startPosition.lineNumber
        endColumn := endPosition.column + 1
        endLineNumber := endPosition.lineNumber
        severity := severityValue type
        source := some "client" })

/-- Source function `wrapAsMonacoMessage(type, code, messages)`: map the
per-message wrapper over the list; a thrown translator error aborts the
whole call, as an exception does in JS. -/
def wrapAsMonacoMessage (type : Severity) (code : String)
    (messages : List Diagnostic) : Except String (List Diagnostic) :=
  messages.mapM (wrapOne type code)

/-- Monaco range record carried by a suggestion entry before the adapter
resets it. -/
structure MonacoRange where
  startLineNumber : Nat
  startColumn : Nat
  endLineNumber : Nat
  endColumn : Nat
deriving Repr, DecidableEq

/-- Suggestion entry returned by the external `suggest` module: an opaque
payload (every field other than `range`, kept by the object spread
`...suggestion`) together with its display range. -/
structure SuggestionEntry (α : Type) where
  payload : α
  range : Option MonacoRange
deriving Repr

/-- The deterministic core of `ESQLAstAdapter.autocomplete`: map each entry
of the suggestion list to a copy whose `range` is reset to `undefined`,
keeping everything else (`...suggestion, range: undefined`). -/
def autocompleteSuggestions {α : Type} (entries : List (SuggestionEntry α)) :
    List (SuggestionEntry α) :=
  entries.map fun s => { s with range := none }

/-- Splitting never produces an empty list of lines. -/
theorem splitLines_ne_nil (l : List Char) : splitLines l ≠ [] := by
  cases l with
  | nil => simp [splitLines]
  | cons c cs =>
    simp only [splitLines]
    split
    · simp
    · split <;> simp

/-- Weight of the split: the summed line lengths plus the number of lines is
the buffer length plus one (each of the `n` lines contributes its length,
and the `n - 1` removed newlines contribute the rest). -/
theorem splitLines_weight (l : List Char) :
    ((splitLines l).map List.length).sum + (splitLines l).length = l.length + 1 := by
  induction l with
  | nil => simp [splitLines]
  | cons c cs ih =>
    by_cases hc : c = '\n'
    · simp only [splitLines, if_pos hc, List.map_cons, List.sum_cons, List.length_cons,
        List.length_nil]
      omega
    · simp only [splitLines, if_neg hc]
      cases h : splitLines cs with
      | nil => exact absurd h (splitLines_ne_nil cs)
      | cons l0 ls =>
        rw [h] at ih
        simp only [List.map_cons, List.sum_cons, List.length_cons] at ih ⊢
        omega

/-- A successful run of the translator loop maps back to its remaining-count
argument: the line number is at least the starting accumulator, the column is
1-based, and the lengths of the preceding lines plus one per preceding
newline plus the 0-based column reconstruct the remaining count. -/
theorem offsetToRowColumnAux_back (ls : List (List Char)) :
    ∀ rem k p, offsetToRowColumnAux ls rem k = .ok p →
      k ≤ p.lineNumber ∧ 1 ≤ p.column ∧
      ((ls.take (p.lineNumber - k)).map List.length).sum +
        (p.lineNumber - k) + (p.column - 1) = rem := by
  induction ls with
  | nil =>
    intro rem k p h
    simp [offsetToRowColumnAux] at h
  | cons line rest ih =>
    intro rem k p h
    simp only [offsetToRowColumnAux] at h
    split at h
    · obtain rfl : Position.mk k (rem + 1) = p := by
        simpa using h
      simp
    · obtain ⟨h1, h2, h3⟩ := ih _ _ _ h
      refine ⟨by omega, h2, ?_⟩
      have hk : p.lineNumber - k = (p.lineNumber - (k + 1)) + 1 := by omega
      rw [hk, List.take_succ_cons, List.map_cons, List.sum_cons]
      have hgt : line.length + 1 ≤ rem := by omega
      omega

/-- The translator loop succeeds whenever the remaining count is strictly
below the weight of the remaining lines. -/
theorem offsetToRowColumnAux_ok (ls : List (List Char)) :
    ∀ rem k, ls ≠ [] → rem + 1 ≤ ((ls.map List.length).sum + ls.length) →
      ∃ p, offsetToRowColumnAux ls rem k = .ok p := by
  induction ls with
  | nil =>
    intro _ _ h
    exact absurd rfl h
  | cons line rest ih =>
    intro rem k _ hrem
    by_cases hlen : line.length ≥ rem
    · exact ⟨⟨k, rem + 1⟩, by simp [offsetToRowColumnAux, hlen]⟩
    · cases rest with
      | nil =>
        simp only [List.map_cons, List.map_nil, List.sum_cons, List.sum_nil,
          List.length_cons, List.length_nil] at hrem
        omega
      | cons r rs =>
        obtain ⟨p, hp⟩ := ih (rem - (line.length + 1)) (k + 1) (by simp) (by
          simp only [List.map_cons, List.sum_cons, List.length_cons] at hrem ⊢
          omega)
        exact ⟨p, by simpa [offsetToRowColumnAux, hlen] using hp⟩

/-- The translator loop falls through to the failure branch whenever the
remaining count is at least the weight of the remaining lines. -/
theorem offsetToRowColumnAux_err (ls : List (List Char)) :
    ∀ rem k, ((ls.map List.length).sum + ls.length) ≤ rem →
      offsetToRowColumnAux ls rem k = .error "Algorithm failure" := by
  induction ls with
  | nil => intro rem k _; rfl
  | cons line rest ih =>
    intro rem k hrem
    simp only [List.map_cons, List.sum_cons, List.length_cons] at hrem
    have hlen : ¬ line.length ≥ rem := by omega
    simp only [offsetToRowColumnAux, if_neg hlen]
    exact ih _ _ (by omega)

/-- Offset 0 always translates to line 1, column 1. -/
theorem offsetToRowColumn_zero (b : String) : offsetToRowColumn b 0 = .ok ⟨1, 1⟩ := by
  unfold offsetToRowColumn
  cases h : splitLines b.data with
  | nil => exact absurd h (splitLines_ne_nil _)
  | cons line rest => simp [offsetToRowColumnAux]

/-- A successful per-message wrap always produces a marker variant. -/
theorem wrapOne_ok_marker (t : Severity) (c : String) (d d' : Diagnostic)
    (h : wrapOne t c d = .ok d') : ∃ m, d' = .marker m := by
  cases d with
  | marker m =>
    refine ⟨m, ?_⟩
    simp only [wrapOne, Except.ok.injEq] at h
    exact h.symm
  | raw text loc =>
    simp only [wrapOne] at h
    cases hs : (match loc with
        | some l => offsetToRowColumn c l.min
        | none => Except.ok fallbackPosition) with
    | error e => rw [hs] at h; simp [Except.bind] at h
    | ok sp =>
      rw [hs] at h
      cases he : (match loc with
          | some l => offsetToRowColumn c (l.max.getD 0)
          | none => Except.ok fallbackPosition) with
      | error e => rw [he] at h; simp [Except.bind] at h
      | ok ep =>
        rw [he] at h
        simp only [Except.bind, Except.ok.injEq] at h
        exact ⟨_, h.symm⟩

/-- Every element of a successful wrap of a message list is a marker. -/
theorem wrapAsMonacoMessage_mem_marker (t : Severity) (c : String) :
    ∀ msgs out, wrapAsMonacoMessage t c msgs = .ok out →
      ∀ d ∈ out, ∃ m, d = .marker m := by
  intro msgs
  induction msgs with
  | nil =>
    intro out h d hd
    simp only [wrapAsMonacoMessage, List.mapM_nil, pure, Except.pure,
      Except.ok.injEq] at h
    subst h
    simp at hd
  | cons x xs ih =>
    intro out h d hd
    simp only [wrapAsMonacoMessage, List.mapM_cons, bind, Except.bind] at h
    cases hx : wrapOne t c x with
    | error e => rw [hx] at h; simp at h
    | ok y =>
      rw [hx] at h
      cases hxs : xs.mapM (wrapOne t c) with
      | error e => rw [hxs] at h; simp at h
      | ok ys =>
        rw [hxs] at h
        simp only [pure, Except.pure, Except.ok.injEq] at h
        subst h
        rcases List.mem_cons.mp hd with rfl | hmem
        · exact wrapOne_ok_marker t c x d hx
        · exact ih ys hxs d hmem

/-- A list made only of markers is a fixed point of the wrapper. -/
theorem wrapAsMonacoMessage_markers_fixed (t : Severity) (c : String) :
    ∀ out, (∀ d ∈ out, ∃ m, d = .marker m) →
      wrapAsMonacoMessage t c out = .ok out := by
  intro out
  induction out with
  | nil => intro _; rfl
  | cons x xs ih =>
    intro hall
    obtain ⟨m, rfl⟩ := hall x (by simp)
    have hxs : wrapAsMonacoMessage t c xs = .ok xs :=
      ih fun d hd => hall d (by simp [hd])
    simp only [wrapAsMonacoMessage, List.mapM_cons] at hxs ⊢
    rw [hxs]
    rfl

/-- Claim C1: for every buffer and every offset within bounds,
`offsetToRowColumn` returns a 1-based position, and summing the lengths of
the preceding lines, one per preceding newline, and `column - 1`
reconstructs the offset exactly. -/
theorem offsetToRowColumn_roundTrip (b : String) (o : Nat) (h : o ≤ b.length) :
    ∃ p, offsetToRowColumn b o = .ok p ∧ 1 ≤ p.lineNumber ∧ 1 ≤ p.column ∧
      (((splitLines b.data).take (p.lineNumber - 1)).map List.length).sum +
        (p.lineNumber - 1) + (p.column - 1) = o := by
  have hw := splitLines_weight b.data
  have hne := splitLines_ne_nil b.data
  have hdata : b.length = b.data.length := rfl
  obtain ⟨p, hp⟩ := offsetToRowColumnAux_ok (splitLines b.data) o 1 hne (by omega)
  obtain ⟨h1, h2, h3⟩ := offsetToRowColumnAux_back (splitLines b.data) o 1 p hp
  exact ⟨p, hp, h1, h2, h3⟩

/-- Witness for C1: the round trip evaluated on the example buffer at
offset 3, which lands at line 2, column 2. -/
theorem offsetToRowColumn_roundTrip_witness :
    ∃ p, offsetToRowColumn "A\nBB\nC" 3 = .ok p ∧ 1 ≤ p.lineNumber ∧ 1 ≤ p.column ∧
      (((splitLines "A\nBB\nC".data).take (p.lineNumber - 1)).map List.length).sum +
        (p.lineNumber - 1) + (p.column - 1) = 3 :=
  offsetToRowColumn_roundTrip "A\nBB\nC" 3 (by decide)

/-- Claim C2: the translator takes the failure branch exactly when the
offset exceeds the buffer length, and succeeds exactly when the offset is
within bounds. -/
theorem offsetToRowColumn_error_iff (b : String) (o : Nat) :
    (offsetToRowColumn b o = .error "Algorithm failure" ↔ b.length < o) ∧
      ((∃ p, offsetToRowColumn b o = .ok p) ↔ o ≤ b.length) := by
  have hw := splitLines_weight b.data
  have hne := splitLines_ne_nil b.data
  have hdata : b.length = b.data.length := rfl
  have hok : o ≤ b.length → ∃ p, offsetToRowColumn b o = .ok p := fun h =>
    offsetToRowColumnAux_ok (splitLines b.data) o 1 hne (by omega)
  have herr : b.length < o →
      offsetToRowColumn b o = .error "Algorithm failure" := fun h =>
    offsetToRowColumnAux_err (splitLines b.data) o 1 (by omega)
  constructor
  · constructor
    · intro h
      by_contra hle
      push_neg at hle
      obtain ⟨p, hp⟩ := hok hle
      rw [hp] at h
      exact absurd h (by simp)
    · exact herr
  · constructor
    · rintro ⟨p, hp⟩
      by_contra hgt
      push_neg at hgt
      rw [herr hgt] at hp
      exact absurd hp (by simp)
    · exact hok

/-- Counterexample to C3 as stated: on the example buffer, offset 6 (the
end of the buffer) translates to line 3, column 2, not to line 3, column 1
as the claim asserts. -/
theorem offsetToRowColumn_example_end_cex :
    offsetToRowColumn "A\nBB\nC" 6 = .ok ⟨3, 2⟩ ∧
      offsetToRowColumn "A\nBB\nC" 6 ≠ .ok ⟨3, 1⟩ := by
  refine ⟨rfl, fun h => ?_⟩
  rw [show offsetToRowColumn "A\nBB\nC" 6 = .ok ⟨3, 2⟩ from rfl] at h
  simp at h

/-- Claim C3 amended: on the buffer with three lines A, BB, C, offset 3
translates to line 2, column 2, and offset 6 (the end of the 6-character
buffer) translates to line 3, column 2. -/
theorem offsetToRowColumn_example :
    offsetToRowColumn "A\nBB\nC" 3 = .ok ⟨2, 2⟩ ∧
      offsetToRowColumn "A\nBB\nC" 6 = .ok ⟨3, 2⟩ :=
  ⟨rfl, rfl⟩

/-- Claim C4: a message that already carries a severity passes through the
wrapper unchanged, and re-wrapping a successful output of the wrapper with
the same tag and buffer returns it unchanged (idempotence). -/
theorem wrapAsMonacoMessage_idem :
    (∀ (t : Severity) (c : String) (m : EditorError),
        wrapOne t c (.marker m) = .ok (.marker m)) ∧
      ∀ (t : Severity) (c : String) (msgs out : List Diagnostic),
        wrapAsMonacoMessage t c msgs = .ok out →
          wrapAsMonacoMessage t c out = .ok out := by
  refine ⟨fun t c m => rfl, fun t c msgs out h => ?_⟩
  exact wrapAsMonacoMessage_markers_fixed t c out
    (wrapAsMonacoMessage_mem_marker t c msgs out h)

/-- Witness for C4: the pass-through and the idempotence evaluated on a
singleton marker list. -/
theorem wrapAsMonacoMessage_idem_witness :
    wrapOne .error "" (.marker ⟨"m", 1, 1, 2, 1, 8, none⟩) =
        .ok (.marker ⟨"m", 1, 1, 2, 1, 8, none⟩) ∧
      wrapAsMonacoMessage .error "" [.marker ⟨"m", 1, 1, 2, 1, 8, none⟩] =
        .ok [.marker ⟨"m", 1, 1, 2, 1, 8, none⟩] :=
  ⟨wrapAsMonacoMessage_idem.1 .error "" ⟨"m", 1, 1, 2, 1, 8, none⟩,
    wrapAsMonacoMessage_idem.2 .error "" [.marker ⟨"m", 1, 1, 2, 1, 8, none⟩]
      [.marker ⟨"m", 1, 1, 2, 1, 8, none⟩] rfl⟩

/-- Counterexample to C5 as stated: wrapping a location-free raw message
uses the fallback position for both ends, but the unconditional exclusive-end
increment makes the resulting endColumn 1, not 0 as the claim asserts. -/
theorem wrapOne_noLocation_endColumn_cex :
    wrapOne .error "" (.raw "x" none) =
        .ok (.marker ⟨"x", 0, 0, 1, 0, 8, some "client"⟩) ∧
      wrapOne .error "" (.raw "x" none) ≠
        .ok (.marker ⟨"x", 0, 0, 0, 0, 8, some "client"⟩) := by
  refine ⟨rfl, fun h => ?_⟩
  rw [show wrapOne .error "" (.raw "x" none) =
      .ok (.marker ⟨"x", 0, 0, 1, 0, 8, some "client"⟩) from rfl] at h
  simp at h

/-- Claim C5 amended: wrapping a raw message without a location uses the
fallback zero position for both ends, so startLineNumber, startColumn and
endLineNumber are 0, while endColumn is 1 because the exclusive-end
increment is applied to the fallback column as well. -/
theorem wrapOne_noLocation (t : Severity) (c : String) (text : String) :
    wrapOne t c (.raw text none) = .ok (.marker
      { message := text
        startColumn := 0
        startLineNumber := 0
        endColumn := 1
        endLineNumber := 0
        severity := severityValue t
        source := some "client" }) := rfl

/-- Claim C6: when both offsets of the location translate successfully, the
wrapped marker has endColumn equal to the translated max column plus one
(exclusive-end convention) and startColumn equal to the translated min
column with no increment. -/
theorem wrapOne_endColumn_plus_one (t : Severity) (c : String) (text : String)
    (mn mx : Nat) (sp ep : Position)
    (hs : offsetToRowColumn c mn = .ok sp)
    (he : offsetToRowColumn c mx = .ok ep) :
    wrapOne t c (.raw text (some ⟨mn, some mx⟩)) = .ok (.marker
      { message := text
        startColumn := sp.column
        startLineNumber := sp.lineNumber
        endColumn := ep.column + 1
        endLineNumber := ep.lineNumber
        severity := severityValue t
        source := some "client" }) := by
  simp only [wrapOne, Option.getD_some, hs, he, Except.bind]

/-- Witness for C6: on the two-character buffer AB with offsets 0 and 1,
the marker end column is the translated column 2 plus one. -/
theorem wrapOne_endColumn_plus_one_witness :
    wrapOne .error "AB" (.raw "m" (some ⟨0, some 1⟩)) = .ok (.marker
      { message := "m"
        startColumn := 1
        startLineNumber := 1
        endColumn := 3
        endLineNumber := 1
        severity := 8
        source := some "client" }) :=
  wrapOne_endColumn_plus_one .error "AB" "m" 0 1 ⟨1, 1⟩ ⟨1, 2⟩ rfl rfl

/-- Claim C7: on the example buffer, wrapping the raw message with text bad
and offset range min 2, max 3 yields a marker spanning line 2 columns 1 to 3
with message bad, for either severity tag. -/
theorem wrapAsMonacoMessage_example :
    wrapAsMonacoMessage .error "A\nBB\nC" [.raw "bad" (some ⟨2, some 3⟩)] =
        .ok [.marker ⟨"bad", 1, 2, 3, 2, 8, some "client"⟩] ∧
      wrapAsMonacoMessage .warning "A\nBB\nC" [.raw "bad" (some ⟨2, some 3⟩)] =
        .ok [.marker ⟨"bad", 1, 2, 3, 2, 4, some "client"⟩] :=
  ⟨rfl, rfl⟩

/-- Claim C8: the autocomplete range reset keeps the number and order of the
suggestion entries, clears every range to undefined, and leaves every other
field (the payload) unchanged. -/
theorem autocompleteSuggestions_spec {α : Type} (entries : List (SuggestionEntry α)) :
    (autocompleteSuggestions entries).length = entries.length ∧
      (∀ s ∈ autocompleteSuggestions entries, s.range = none) ∧
      (autocompleteSuggestions entries).map SuggestionEntry.payload =
        entries.map SuggestionEntry.payload := by
  refine ⟨by simp [autocompleteSuggestions], ?_, ?_⟩
  · intro s hs
    simp only [autocompleteSuggestions, List.mem_map] at hs
    obtain ⟨a, _, rfl⟩ := hs
    rfl
  · simp [autocompleteSuggestions]

/-- Witness for C8: the reset evaluated on a singleton list whose entry
carries a range. -/
theorem autocompleteSuggestions_spec_witness :
    (autocompleteSuggestions [(⟨7, some ⟨1, 1, 1, 2⟩⟩ : SuggestionEntry Nat)]).length = 1 ∧
      SuggestionEntry.range (⟨7, none⟩ : SuggestionEntry Nat) = none ∧
      (autocompleteSuggestions [(⟨7, some ⟨1, 1, 1, 2⟩⟩ : SuggestionEntry Nat)]).map
        SuggestionEntry.payload = [7] :=
  ⟨(autocompleteSuggestions_spec [(⟨7, some ⟨1, 1, 1, 2⟩⟩ : SuggestionEntry Nat)]).1,
    (autocompleteSuggestions_spec [(⟨7, some ⟨1, 1, 1, 2⟩⟩ : SuggestionEntry Nat)]).2.1
      ⟨7, none⟩ (by simp [autocompleteSuggestions]),
    (autocompleteSuggestions_spec [(⟨7, some ⟨1, 1, 1, 2⟩⟩ : SuggestionEntry Nat)]).2.2⟩

/-- Claim C9: every element of a successful wrapper result passes the
severity duck-test and is a positioned marker, which by construction carries
the line/column fields and no raw offset range. -/
theorem wrapAsMonacoMessage_all_positioned (t : Severity) (c : String)
    (msgs out : List Diagnostic) (h : wrapAsMonacoMessage t c msgs = .ok out) :
    ∀ d ∈ out, hasSeverity d = true ∧ ∃ m, d = .marker m := by
  intro d hd
  obtain ⟨m, rfl⟩ := wrapAsMonacoMessage_mem_marker t c msgs out h d hd
  exact ⟨rfl, m, rfl⟩

/-- Witness for C9: the invariant evaluated on the output element produced
from a raw message on the example buffer. -/
theorem wrapAsMonacoMessage_all_positioned_witness :
    hasSeverity (.marker ⟨"bad", 1, 2, 3, 2, 8, some "client"⟩) = true ∧
      ∃ m, (Diagnostic.marker ⟨"bad", 1, 2, 3, 2, 8, some "client"⟩) = .marker m :=
  wrapAsMonacoMessage_all_positioned .error "A\nBB\nC"
    [.raw "bad" (some ⟨2, some 3⟩)]
    [.marker ⟨"bad", 1, 2, 3, 2, 8, some "client"⟩] rfl
    (.marker ⟨"bad", 1, 2, 3, 2, 8, some "client"⟩) (by simp)

/-- Claim C10: a location whose max is absent or zero has its marker end
computed from offset 0, which always translates to line 1 column 1, so the
marker gets endLineNumber 1 and endColumn 2 regardless of where the start
position lies. -/
theorem wrapOne_zero_max (t : Severity) (c : String) (text : String)
    (mn : Nat) (sp : Position) (hs : offsetToRowColumn c mn = .ok sp) :
    wrapOne t c (.raw text (some ⟨mn, none⟩)) = .ok (.marker
      { message := text
        startColumn := sp.column
        startLineNumber := sp.lineNumber
        endColumn := 2
        endLineNumber := 1
        severity := severityValue t
        source := some "client" }) ∧
      wrapOne t c (.raw text (some ⟨mn, some 0⟩)) = .ok (.marker
        { message := text
          startColumn := sp.column
          startLineNumber := sp.lineNumber
          endColumn := 2
          endLineNumber := 1
          severity := severityValue t
          source := some "client" }) := by
  have h0 := offsetToRowColumn_zero c
  constructor <;>
    simp only [wrapOne, Option.getD_some, Option.getD_none, hs, h0, Except.bind]

/-- Witness for C10: on the example buffer with min offset 5 the start
position is line 3 column 1, after the end position line 1 column 1; the
marker still gets endLineNumber 1 and endColumn 2 for both an absent and a
zero max. -/
theorem wrapOne_zero_max_witness :
    wrapOne .error "A\nBB\nC" (.raw "x" (some ⟨5, none⟩)) = .ok (.marker
      { message := "x"
        startColumn := 1
        startLineNumber := 3
        endColumn := 2
        endLineNumber := 1
        severity := 8
        source := some "client" }) ∧
      wrapOne .error "A\nBB\nC" (.raw "x" (some ⟨5, some 0⟩)) = .ok (.marker
        { message := "x"
          startColumn := 1
          startLineNumber := 3
          endColumn := 2
          endLineNumber := 1
          severity := 8
          source := some "client" }) :=
  wrapOne_zero_max .error "A\nBB\nC" "x" 5 ⟨3, 1⟩ rfl
